import Mathlib

/-!
Verification development for the order-book snapshot parser and matching
engine of `order_book_parser` (src/src/lib.rs).

Prices and quantities are `rust_decimal::Decimal` values in the source;
they are embedded here as rational numbers (`ℚ`), which carry the exact
base-10 fixed-point arithmetic the library relies on.  The `%` operator of
`rust_decimal` panics on a zero divisor; it is embedded as `decRem`
returning `Option ℚ`, with `none` standing for the panic.  Fallible
operations return `Except OrderBookError` values; `execute_market_order`
additionally returns the (possibly mutated) book, mirroring `&mut self`.
-/

/-- Side of a trade, from `enum Side` in lib.rs. -/
inductive Side where
  | Buy : Side
  | Sell : Side
deriving DecidableEq, Repr

/-- A single price level, from `struct Level` in lib.rs. -/
structure Level where
  price : ℚ
  quantity : ℚ
deriving DecidableEq, Repr

/-- The order book, from `struct OrderBook` in lib.rs. -/
structure OrderBook where
  bids : List Level
  asks : List Level
deriving DecidableEq, Repr

/-- Instrument validation rules, from `struct InstrumentConfig` in lib.rs. -/
structure InstrumentConfig where
  tick_size : ℚ
  min_lot : ℚ
  lot_step : ℚ
deriving DecidableEq, Repr

/-- An open position, from `struct Position` in lib.rs. -/
structure Position where
  side : Side
  quantity : ℚ
  entry_price : ℚ
deriving DecidableEq, Repr

/-- The error taxonomy, from `enum OrderBookError` in lib.rs.  The pest
error payload of `ParseError` and the `rust_decimal` payload of
`DecimalError` are not modelled; all other payloads are kept. -/
inductive OrderBookError where
  | ParseError : OrderBookError
  | DecimalError : OrderBookError
  | MissingSection : String → OrderBookError
  | BidsUnsorted : ℚ → OrderBookError
  | AsksUnsorted : ℚ → OrderBookError
  | DuplicatePrice : ℚ → OrderBookError
  | CrossedBook : ℚ → ℚ → OrderBookError
  | InvalidTickSize : ℚ → ℚ → OrderBookError
  | InvalidMinLot : ℚ → ℚ → OrderBookError
  | InvalidLotStep : ℚ → ℚ → OrderBookError
  | NotEnoughLiquidity : ℚ → ℚ → OrderBookError
deriving DecidableEq, Repr

/-- Truncated integer part of a rational (rounding toward zero), the
division convention underlying the `%` of `rust_decimal`. -/
def ratTrunc (q : ℚ) : ℤ :=
  if q < 0 then ⌈q⌉ else ⌊q⌋

/-- Remainder of `a` by `b` as computed by the `%` of `rust_decimal`:
remainder of the truncated division.  `rust_decimal` panics when the
divisor is zero; the panic is modelled as `none`. -/
def decRem (a b : ℚ) : Option ℚ :=
  if b = 0 then none else some (a - b * (ratTrunc (a / b) : ℚ))

/-- `Position::calculate_pnl` from lib.rs: a Buy closes at the best bid,
a Sell at the best ask; `none` when the exit side is empty. -/
def calculate_pnl (pos : Position) (book : OrderBook) : Option ℚ :=
  match pos.side with
  | Side.Buy =>
    match book.bids.head? with
    | none => none
    | some best => some ((best.price - pos.entry_price) * pos.quantity)
  | Side.Sell =>
    match book.asks.head? with
    | none => none
    | some best => some ((pos.entry_price - best.price) * pos.quantity)

/-- The opposite-side selection of `execute_market_order`: a Buy consumes
the asks, a Sell consumes the bids. -/
def oppositeLevels (book : OrderBook) (side : Side) : List Level :=
  match side with
  | Side.Buy => book.asks
  | Side.Sell => book.bids

/-- The consumption loop of `execute_market_order` (lib.rs lines 205-223).
Given the level list and the remaining requested quantity, returns the
levels left after the loop, the accumulated `total_cost` and the
accumulated `filled_qty`.  The loop index stays at the front: a fully
consumed level is removed, a partially consumed level ends the loop. -/
def consumeLevels : List Level → ℚ → List Level × ℚ × ℚ
  | [], _ => ([], 0, 0)
  | l :: ls, remaining =>
    if remaining ≤ 0 then (l :: ls, 0, 0)
    else if l.quantity ≤ remaining then
      let r := consumeLevels ls (remaining - l.quantity)
      (r.1, l.price * l.quantity + r.2.1, l.quantity + r.2.2)
    else
      ({ l with quantity := l.quantity - remaining } :: ls,
        l.price * remaining, remaining)

/-- `OrderBook::execute_market_order` from lib.rs.  Returns the book after
the call (the source mutates `&mut self`) together with the result. -/
def execute_market_order (book : OrderBook) (side : Side) (quantity : ℚ) :
    OrderBook × Except OrderBookError Position :=
  if quantity ≤ 0 then
    (book, Except.error (OrderBookError.NotEnoughLiquidity quantity 0))
  else
    let res := consumeLevels (oppositeLevels book side) quantity
    let book' : OrderBook :=
      match side with
      | Side.Buy => { book with asks := res.1 }
      | Side.Sell => { book with bids := res.1 }
    if res.2.2 = 0 then
      (book', Except.error (OrderBookError.NotEnoughLiquidity quantity 0))
    else
      (book', Except.ok ⟨side, res.2.2, res.2.1 / res.2.2⟩)

/-- The bids pass of `validate_book_logic` (lib.rs lines 316-323): scan
adjacent pairs, duplicate check first, then descending order. -/
def checkBids : List Level → Except OrderBookError Unit
  | a :: b :: rest =>
    if a.price = b.price then Except.error (OrderBookError.DuplicatePrice a.price)
    else if a.price < b.price then Except.error (OrderBookError.BidsUnsorted b.price)
    else checkBids (b :: rest)
  | _ => Except.ok ()

/-- The asks pass of `validate_book_logic` (lib.rs lines 324-331): scan
adjacent pairs, duplicate check first, then ascending order. -/
def checkAsks : List Level → Except OrderBookError Unit
  | a :: b :: rest =>
    if a.price = b.price then Except.error (OrderBookError.DuplicatePrice a.price)
    else if b.price < a.price then Except.error (OrderBookError.AsksUnsorted b.price)
    else checkAsks (b :: rest)
  | _ => Except.ok ()

/-- `validate_book_logic` from lib.rs: bids pass, then asks pass, then the
top-of-book crossing check on the first element of each side. -/
def validate_book_logic (book : OrderBook) : Except OrderBookError Unit :=
  match checkBids book.bids with
  | Except.error e => Except.error e
  | Except.ok _ =>
    match checkAsks book.asks with
    | Except.error e => Except.error e
    | Except.ok _ =>
      match book.bids.head?, book.asks.head? with
      | some bid, some ask =>
        if ask.price ≤ bid.price then
          Except.error (OrderBookError.CrossedBook bid.price ask.price)
        else Except.ok ()
      | _, _ => Except.ok ()

/-- The per-level body of `validate_instrument_rules` (lib.rs lines
345-364): tick-size check, then min-lot check, then lot-step check, each
returning its error on the first violation.  `none` is the panic of a
zero-divisor `%`. -/
def checkLevel (config : InstrumentConfig) (level : Level) :
    Option (Except OrderBookError Unit) :=
  match decRem level.price config.tick_size with
  | none => none
  | some r =>
    if r ≠ 0 then
      some (Except.error (OrderBookError.InvalidTickSize level.price config.tick_size))
    else if level.quantity < config.min_lot then
      some (Except.error (OrderBookError.InvalidMinLot level.quantity config.min_lot))
    else
      match decRem level.quantity config.lot_step with
      | none => none
      | some r2 =>
        if r2 ≠ 0 then
          some (Except.error (OrderBookError.InvalidLotStep level.quantity config.lot_step))
        else some (Except.ok ())

/-- The iteration of `validate_instrument_rules` over a level list:
stop at the first level whose check does not succeed. -/
def checkLevels (config : InstrumentConfig) : List Level → Option (Except OrderBookError Unit)
  | [] => some (Except.ok ())
  | l :: ls =>
    match checkLevel config l with
    | some (Except.ok _) => checkLevels config ls
    | other => other

/-- `validate_instrument_rules` from lib.rs: iterate the bids chained with
the asks, in list order. -/
def validate_instrument_rules (book : OrderBook) (config : InstrumentConfig) :
    Option (Except OrderBookError Unit) :=
  checkLevels config (book.bids ++ book.asks)

/-- Whitespace characters of the grammar rule `WHITESPACE`. -/
def isWsChar (c : Char) : Bool :=
  c = ' ' || c = '\t' || c = '\r' || c = '\n'

/-- Skip silent whitespace between tokens. -/
def skipWs (s : List Char) : List Char :=
  s.dropWhile isWsChar

/-- ASCII digit test, grammar rule `ASCII_DIGIT`. -/
def isDigitChar (c : Char) : Bool :=
  '0' ≤ c && c ≤ '9'

/-- Numeric value of a digit sequence. -/
def digitsToNat (ds : List Char) : Nat :=
  ds.foldl (fun n c => 10 * n + (c.toNat - 48)) 0

/-- Modelled from the spec: the `number` rule of the grammar
(`integer ("." integer)?`, atomic) together with the exact-decimal
conversion of the Level Extractor.  `grammar.pest` is not in the
repository, so the rule follows the EBNF of spec section 4.1; the raw
substring is converted directly to its exact rational value.  Returns the
value and the unconsumed input; the optional fractional part is dropped
(PEG backtracking) when no digit follows the dot. -/
def parseNumber (s : List Char) : Option (ℚ × List Char) :=
  let ds := s.takeWhile isDigitChar
  let rest := s.dropWhile isDigitChar
  if ds.isEmpty then none
  else
    match rest with
    | '.' :: rest2 =>
      let fs := rest2.takeWhile isDigitChar
      let rest3 := rest2.dropWhile isDigitChar
      if fs.isEmpty then some ((digitsToNat ds : ℚ), rest)
      else some ((digitsToNat ds : ℚ) + (digitsToNat fs : ℚ) / ((10 : ℚ) ^ fs.length), rest3)
    | _ => some ((digitsToNat ds : ℚ), rest)

/-- Modelled from the spec: consume one expected literal character after
skipping silent whitespace. -/
def expectChar (c : Char) (s : List Char) : Option (List Char) :=
  match skipWs s with
  | [] => none
  | d :: rest => if d = c then some rest else none

/-- Modelled from the spec: consume an exact case-sensitive identifier
(`BIDS` or `ASKS`) after skipping silent whitespace. -/
def expectWord : List Char → List Char → Option (List Char)
  | [], s => some s
  | c :: cs, s =>
    match s with
    | [] => none
    | d :: rest => if d = c then expectWord cs rest else none

/-- Modelled from the spec: the `level` rule (`number "," number`),
whitespace allowed between its tokens.  Yields the extracted `Level`. -/
def parseLevel (s : List Char) : Option (Level × List Char) :=
  match parseNumber (skipWs s) with
  | none => none
  | some (price, s1) =>
    match expectChar ',' s1 with
    | none => none
    | some s2 =>
      match parseNumber (skipWs s2) with
      | none => none
      | some (qty, s3) => some (⟨price, qty⟩, s3)

/-- Modelled from the spec: the `("|" level)*` repetition of the
`level_list` rule, with PEG backtracking (a `"|"` not followed by a level
is left unconsumed).  The fuel bounds the recursion; each iteration
consumes at least the pipe character, so the input length is enough. -/
def parseMoreLevels : Nat → List Char → List Level × List Char
  | 0, s => ([], s)
  | fuel + 1, s =>
    match expectChar '|' s with
    | none => ([], s)
    | some s1 =>
      match parseLevel s1 with
      | none => ([], s)
      | some (l, s2) =>
        let r := parseMoreLevels fuel s2
        (l :: r.1, r.2)

/-- Modelled from the spec: the `level_list` rule (`(level)? ("|" level)*`). -/
def parseLevelList (s : List Char) : List Level × List Char :=
  match parseLevel s with
  | none => parseMoreLevels s.length s
  | some (l, s1) =>
    let r := parseMoreLevels s1.length s1
    (l :: r.1, r.2)

/-- Modelled from the spec: the root `order_book` rule
(`bids_side ";" asks_side` with `bids_side = "BIDS" ":" level_list` and
`asks_side = "ASKS" ":" level_list`), whitespace silently ignored between
tokens, trailing fragments failing the parse, combined with the Level
Extractor that assembles the two sides into an `OrderBook`. -/
def parseOrderBookText (s : List Char) : Option OrderBook :=
  match expectWord ['B', 'I', 'D', 'S'] (skipWs s) with
  | none => none
  | some s1 =>
    match expectChar ':' s1 with
    | none => none
    | some s2 =>
      let bidsR := parseLevelList s2
      match expectChar ';' bidsR.2 with
      | none => none
      | some s3 =>
        match expectWord ['A', 'S', 'K', 'S'] (skipWs s3) with
        | none => none
        | some s4 =>
          match expectChar ':' s4 with
          | none => none
          | some s5 =>
            let asksR := parseLevelList s5
            if (skipWs asksR.2).isEmpty then some ⟨bidsR.1, asksR.1⟩
            else none

/-- The structural part of `parse_order_book`: grammar recognition and
level extraction (spec-modelled, `grammar.pest` being absent from the
repository), followed by `validate_book_logic`. -/
def parse_and_validate (input : String) : Except OrderBookError OrderBook :=
  match parseOrderBookText input.data with
  | none => Except.error OrderBookError.ParseError
  | some book =>
    match validate_book_logic book with
    | Except.error e => Except.error e
    | Except.ok _ => Except.ok book

/-- `parse_order_book` from lib.rs: parse and extract, validate the book
logic, then run the instrument rules only when a config is supplied.
The outer `Option` is `none` exactly when `validate_instrument_rules`
panics (zero-divisor `%`). -/
def parse_order_book (input : String) (config : Option InstrumentConfig) :
    Option (Except OrderBookError OrderBook) :=
  match parse_and_validate input with
  | Except.error e => some (Except.error e)
  | Except.ok book =>
    match config with
    | none => some (Except.ok book)
    | some cfg =>
      match validate_instrument_rules book cfg with
      | none => none
      | some (Except.error e) => some (Except.error e)
      | some (Except.ok _) => some (Except.ok book)

/-- Total quantity held by a list of levels. -/
def sumQty (ls : List Level) : ℚ :=
  (ls.map Level.quantity).sum

/-- The greedy-consumption description of spec section 4.5, transcribed
for the refinement statement of the matching claims: filled quantity and
total cost accumulated by repeatedly taking the best level, consuming it
fully when its quantity is at most the remaining requested quantity and
partially otherwise. -/
def greedySpecFill : List Level → ℚ → ℚ × ℚ
  | [], _ => (0, 0)
  | l :: ls, r =>
    if r ≤ 0 then (0, 0)
    else if l.quantity ≤ r then
      let p := greedySpecFill ls (r - l.quantity)
      (l.quantity + p.1, l.price * l.quantity + p.2)
    else (r, l.price * r)

/-- A concrete snapshot with a single bid level and an empty asks side. -/
def inputOneBid : String := "BIDS:1,1;ASKS:"

deriving instance DecidableEq for Except

/-! ### Lemmas about the consumption loop -/

theorem sumQty_nil : sumQty [] = 0 := rfl

theorem sumQty_cons (l : Level) (ls : List Level) :
    sumQty (l :: ls) = l.quantity + sumQty ls := by
  simp [sumQty]

theorem sumQty_nonneg (ls : List Level) (h : ∀ l ∈ ls, 0 ≤ l.quantity) :
    0 ≤ sumQty ls := by
  induction ls with
  | nil => simp [sumQty_nil]
  | cons l ls ih =>
    rw [sumQty_cons]
    have h1 := h l (List.mem_cons_self l ls)
    have h2 := ih (fun a ha => h a (List.mem_cons_of_mem l ha))
    linarith

/-- The filled quantity and total cost of the loop agree with the
spec-level greedy description. -/
theorem consumeLevels_eq_greedy (ls : List Level) (r : ℚ) :
    (consumeLevels ls r).2.2 = (greedySpecFill ls r).1 ∧
      (consumeLevels ls r).2.1 = (greedySpecFill ls r).2 := by
  induction ls generalizing r with
  | nil => simp [consumeLevels, greedySpecFill]
  | cons l ls ih =>
    by_cases h1 : r ≤ 0
    · simp [consumeLevels, greedySpecFill, h1]
    · by_cases h2 : l.quantity ≤ r
      · have := ih (r - l.quantity)
        simp only [consumeLevels, greedySpecFill, if_neg h1, if_pos h2]
        exact ⟨by rw [this.1], by rw [this.2]⟩
      · simp [consumeLevels, greedySpecFill, h1, h2]

/-- The loop never fills more than the requested quantity. -/
theorem consumeLevels_filled_le (ls : List Level) (r : ℚ) (hr : 0 ≤ r) :
    (consumeLevels ls r).2.2 ≤ r := by
  induction ls generalizing r with
  | nil => simpa [consumeLevels] using hr
  | cons l ls ih =>
    by_cases h1 : r ≤ 0
    · simpa [consumeLevels, h1] using hr
    · by_cases h2 : l.quantity ≤ r
      · have h3 := ih (r - l.quantity) (by linarith)
        simp only [consumeLevels, if_neg h1, if_pos h2]
        linarith
      · simp [consumeLevels, h1, h2]

/-- The quantity held by the remaining levels drops by exactly the filled
quantity. -/
theorem consumeLevels_sumQty (ls : List Level) (r : ℚ) :
    sumQty (consumeLevels ls r).1 = sumQty ls - (consumeLevels ls r).2.2 := by
  induction ls generalizing r with
  | nil => simp [consumeLevels, sumQty]
  | cons l ls ih =>
    by_cases h1 : r ≤ 0
    · simp [consumeLevels, h1]
    · by_cases h2 : l.quantity ≤ r
      · have h3 := ih (r - l.quantity)
        simp only [consumeLevels, if_neg h1, if_pos h2]
        rw [h3, sumQty_cons]
        ring
      · simp only [consumeLevels, if_neg h1, if_neg h2]
        rw [sumQty_cons, sumQty_cons]
        ring_nf

/-- With nonnegative level quantities, the loop fills exactly the minimum
of the requested quantity and the total available quantity. -/
theorem consumeLevels_filled_min (ls : List Level) (r : ℚ)
    (hnn : ∀ l ∈ ls, 0 ≤ l.quantity) (hr : 0 ≤ r) :
    (consumeLevels ls r).2.2 = min r (sumQty ls) := by
  induction ls generalizing r with
  | nil =>
    simp [consumeLevels, sumQty_nil, min_eq_right hr]
  | cons l ls ih =>
    have hsum : 0 ≤ sumQty ls :=
      sumQty_nonneg ls (fun a ha => hnn a (List.mem_cons_of_mem l ha))
    have hlq : 0 ≤ l.quantity := hnn l (List.mem_cons_self l ls)
    by_cases h1 : r ≤ 0
    · have hr0 : r = 0 := le_antisymm h1 hr
      subst hr0
      have hs : (0 : ℚ) ≤ sumQty (l :: ls) := by
        rw [sumQty_cons]; linarith
      simp [consumeLevels, min_eq_left hs]
    · by_cases h2 : l.quantity ≤ r
      · have h3 := ih (r - l.quantity) (fun a ha => hnn a (List.mem_cons_of_mem l ha))
          (by linarith)
        simp only [consumeLevels, if_neg h1, if_pos h2]
        rw [h3, ← min_add_add_left]
        have h4 : l.quantity + (r - l.quantity) = r := by ring
        rw [h4, sumQty_cons]
      · simp only [consumeLevels, if_neg h1, if_neg h2]
        have h5 : r < l.quantity := lt_of_not_le h2
        have hle : r ≤ sumQty (l :: ls) := by
          rw [sumQty_cons]; linarith
        rw [min_eq_left hle]

/-- The prices of the levels left by the loop form a suffix of the prices
of the original levels: the loop removes a front segment and can only
shrink the quantity of the first remaining level. -/
theorem consumeLevels_price_sfx (ls : List Level) (r : ℚ) :
    ((consumeLevels ls r).1.map Level.price) <:+ (ls.map Level.price) := by
  induction ls generalizing r with
  | nil => simp [consumeLevels]
  | cons l ls ih =>
    by_cases h1 : r ≤ 0
    · simp [consumeLevels, h1]
    · by_cases h2 : l.quantity ≤ r
      · simp only [consumeLevels, if_neg h1, if_pos h2]
        exact (ih (r - l.quantity)).trans (List.suffix_cons l.price (ls.map Level.price))
      · simp only [consumeLevels, if_neg h1, if_neg h2]
        exact List.suffix_rfl

/-! ### Unfolding lemmas for execute_market_order -/

/-- A non-positive requested quantity returns immediately. -/
theorem execute_eq_of_nonpos (book : OrderBook) (side : Side) (q : ℚ) (hq : q ≤ 0) :
    execute_market_order book side q =
      (book, Except.error (OrderBookError.NotEnoughLiquidity q 0)) := by
  unfold execute_market_order
  rw [if_pos hq]

/-- The book written back by the loop, when the quantity check passes. -/
theorem execute_fst_eq (book : OrderBook) (side : Side) (q : ℚ) (hq : ¬ q ≤ 0) :
    (execute_market_order book side q).1 =
      (match side with
       | Side.Buy => { book with asks := (consumeLevels (oppositeLevels book side) q).1 }
       | Side.Sell => { book with bids := (consumeLevels (oppositeLevels book side) q).1 }) := by
  unfold execute_market_order
  rw [if_neg hq]
  cases side <;> dsimp only <;> split <;> rfl

/-- Zero filled quantity fails with NotEnoughLiquidity. -/
theorem execute_eq_of_zero_fill (book : OrderBook) (side : Side) (q : ℚ) (hq : ¬ q ≤ 0)
    (hf : (consumeLevels (oppositeLevels book side) q).2.2 = 0) :
    (execute_market_order book side q).2 =
      Except.error (OrderBookError.NotEnoughLiquidity q 0) := by
  unfold execute_market_order
  rw [if_neg hq]
  dsimp only
  rw [if_pos hf]

/-- Nonzero filled quantity returns the position built from the loop
accumulators. -/
theorem execute_snd_eq_of_fill (book : OrderBook) (side : Side) (q : ℚ) (hq : ¬ q ≤ 0)
    (hf : (consumeLevels (oppositeLevels book side) q).2.2 ≠ 0) :
    (execute_market_order book side q).2 =
      Except.ok ⟨side, (consumeLevels (oppositeLevels book side) q).2.2,
        (consumeLevels (oppositeLevels book side) q).2.1 /
          (consumeLevels (oppositeLevels book side) q).2.2⟩ := by
  unfold execute_market_order
  rw [if_neg hq]
  dsimp only
  rw [if_neg hf]

/-- The opposite side of the book after execution is the level list left
by the loop; the other side is untouched. -/
theorem execute_oppositeLevels (book : OrderBook) (side : Side) (q : ℚ) (hq : ¬ q ≤ 0) :
    oppositeLevels (execute_market_order book side q).1 side =
      (consumeLevels (oppositeLevels book side) q).1 := by
  rw [execute_fst_eq book side q hq]
  cases side <;> rfl

/-! ### Claim C9: non-positive requested quantity -/

/-- C9: for every order book and side, a requested quantity that is not
strictly positive fails with NotEnoughLiquidity carrying the requested
quantity and available 0, and the book is unchanged. -/
theorem c9_nonpositive_quantity_rejected (book : OrderBook) (side : Side) (q : ℚ)
    (hq : q ≤ 0) :
    execute_market_order book side q =
      (book, Except.error (OrderBookError.NotEnoughLiquidity q 0)) :=
  execute_eq_of_nonpos book side q hq

/-- Witness for C9 at a concrete book and quantity zero. -/
theorem c9_witness :
    execute_market_order ⟨[⟨99, 1⟩], [⟨101, 2⟩]⟩ Side.Buy 0 =
      (⟨[⟨99, 1⟩], [⟨101, 2⟩]⟩,
        Except.error (OrderBookError.NotEnoughLiquidity 0 0)) :=
  c9_nonpositive_quantity_rejected ⟨[⟨99, 1⟩], [⟨101, 2⟩]⟩ Side.Buy 0 le_rfl

/-! ### Claim C8: PnL calculation -/

/-- C8: calculate_pnl marks a Buy against the first bid as
(best bid - entry) * quantity, a Sell against the first ask as
(entry - best ask) * quantity, and returns none exactly when the relevant
exit side is empty. -/
theorem c8_calculate_pnl_spec (pos : Position) (book : OrderBook) :
    (pos.side = Side.Buy →
      (book.bids = [] → calculate_pnl pos book = none) ∧
      (∀ l ls, book.bids = l :: ls →
        calculate_pnl pos book = some ((l.price - pos.entry_price) * pos.quantity))) ∧
    (pos.side = Side.Sell →
      (book.asks = [] → calculate_pnl pos book = none) ∧
      (∀ l ls, book.asks = l :: ls →
        calculate_pnl pos book = some ((pos.entry_price - l.price) * pos.quantity))) := by
  constructor
  · intro hside
    constructor
    · intro hnil
      simp [calculate_pnl, hside, hnil]
    · intro l ls hcons
      simp [calculate_pnl, hside, hcons]
  · intro hside
    constructor
    · intro hnil
      simp [calculate_pnl, hside, hnil]
    · intro l ls hcons
      simp [calculate_pnl, hside, hcons]

/-- Witness for C8: a long position marked against a concrete best bid. -/
theorem c8_witness :
    calculate_pnl ⟨Side.Buy, 15, 1520 / 15⟩ ⟨[⟨99, 10⟩], [⟨102, 5⟩]⟩ =
      some ((99 - 1520 / 15) * 15) :=
  ((c8_calculate_pnl_spec ⟨Side.Buy, 15, 1520 / 15⟩ ⟨[⟨99, 10⟩], [⟨102, 5⟩]⟩).1
    rfl).2 ⟨99, 10⟩ [] rfl

/-! ### Claim C1: atomicity of the zero-fill failure -/

/-- C1 counterexample: on a book whose only ask level has quantity zero, a
market buy fails with NotEnoughLiquidity (zero fill) yet the book HAS been
mutated: the zero-quantity level was removed. -/
theorem c1_counterexample :
    execute_market_order ⟨[], [⟨100, 0⟩]⟩ Side.Buy 5 =
      (⟨[], []⟩, Except.error (OrderBookError.NotEnoughLiquidity 5 0)) ∧
    (⟨[], []⟩ : OrderBook) ≠ ⟨[], [⟨100, 0⟩]⟩ := by
  constructor
  · norm_num [execute_market_order, oppositeLevels, consumeLevels]
  · decide

/-- C1 as amended: when every level of the consumed (opposite) side has
strictly positive quantity, a failing execute_market_order leaves the book
completely unchanged. -/
theorem c1_zero_fill_leaves_book_unchanged (book : OrderBook) (side : Side) (q : ℚ)
    (e : OrderBookError)
    (hpos : ∀ l ∈ oppositeLevels book side, 0 < l.quantity)
    (herr : (execute_market_order book side q).2 = Except.error e) :
    (execute_market_order book side q).1 = book := by
  by_cases hq : q ≤ 0
  · rw [execute_eq_of_nonpos book side q hq]
  · have hnn : ∀ l ∈ oppositeLevels book side, 0 ≤ l.quantity :=
      fun l hl => le_of_lt (hpos l hl)
    have hq' : (0 : ℚ) ≤ q := le_of_lt (lt_of_not_le hq)
    -- a failing call means the filled quantity is zero
    have hf : (consumeLevels (oppositeLevels book side) q).2.2 = 0 := by
      by_contra hne
      rw [execute_snd_eq_of_fill book side q hq hne] at herr
      exact Except.noConfusion herr
    -- zero fill forces the opposite side to be empty
    have hempty : oppositeLevels book side = [] := by
      cases hop : oppositeLevels book side with
      | nil => rfl
      | cons l ls =>
        exfalso
        have hmin := consumeLevels_filled_min (oppositeLevels book side) q
          hnn hq'
        rw [hf] at hmin
        have hsum : 0 < sumQty (oppositeLevels book side) := by
          rw [hop, sumQty_cons]
          have h1 : 0 < l.quantity := hpos l (by rw [hop]; exact List.mem_cons_self l ls)
          have h2 : 0 ≤ sumQty ls := sumQty_nonneg ls
            (fun a ha => hnn a (by rw [hop]; exact List.mem_cons_of_mem l ha))
          linarith
        have hqpos : 0 < q := lt_of_not_le hq
        have : 0 < min q (sumQty (oppositeLevels book side)) := lt_min hqpos hsum
        rw [← hmin] at this
        exact lt_irrefl 0 this
    rw [execute_fst_eq book side q hq]
    cases side with
    | Buy =>
      have : book.asks = [] := hempty
      rw [hempty]
      simp [consumeLevels, ← this]
    | Sell =>
      have : book.bids = [] := hempty
      rw [hempty]
      simp [consumeLevels, ← this]

/-- Witness for the amended C1: a failing buy with positive-quantity
levels present on the book leaves it unchanged. -/
theorem c1_witness :
    (execute_market_order ⟨[⟨99, 1⟩], [⟨101, 2⟩]⟩ Side.Buy (-1)).1 =
      ⟨[⟨99, 1⟩], [⟨101, 2⟩]⟩ :=
  c1_zero_fill_leaves_book_unchanged ⟨[⟨99, 1⟩], [⟨101, 2⟩]⟩ Side.Buy (-1)
    (OrderBookError.NotEnoughLiquidity (-1) 0)
    (by intro l hl; simp [oppositeLevels] at hl; rw [hl]; norm_num)
    (by norm_num [execute_market_order])

/-! ### Claims C2 and C10: the fill -/

theorem sumQty_pos_of_mem (ls : List Level) (l0 : Level)
    (hnn : ∀ l ∈ ls, 0 ≤ l.quantity) (hmem : l0 ∈ ls) (hp : 0 < l0.quantity) :
    0 < sumQty ls := by
  induction ls with
  | nil => cases hmem
  | cons a ls ih =>
    rw [sumQty_cons]
    have ha : 0 ≤ a.quantity := hnn a (List.mem_cons_self a ls)
    have hs : 0 ≤ sumQty ls :=
      sumQty_nonneg ls (fun x hx => hnn x (List.mem_cons_of_mem a hx))
    rcases List.mem_cons.mp hmem with rfl | hmem'
    · linarith
    · have := ih (fun x hx => hnn x (List.mem_cons_of_mem a hx)) hmem'
      linarith

/-- C2: on a validated book with strictly positive requested quantity, a
successful execute_market_order returns the requested side, the greedily
consumed quantity (at most the requested quantity), and the exact VWAP
entry price total_cost / filled; a partial fill (positive liquidity
available) is a success, not an error. -/
theorem c2_fill_and_vwap (book : OrderBook) (side : Side) (q : ℚ)
    (_hval : validate_book_logic book = Except.ok ()) (hq : 0 < q) :
    (∀ pos, (execute_market_order book side q).2 = Except.ok pos →
      pos.side = side ∧
      pos.quantity = (greedySpecFill (oppositeLevels book side) q).1 ∧
      pos.quantity ≤ q ∧
      pos.entry_price = (greedySpecFill (oppositeLevels book side) q).2 / pos.quantity) ∧
    ((∀ l ∈ oppositeLevels book side, 0 ≤ l.quantity) →
      (∃ l ∈ oppositeLevels book side, 0 < l.quantity) →
      ∃ pos, (execute_market_order book side q).2 = Except.ok pos) := by
  have hqle : ¬ q ≤ 0 := not_le.mpr hq
  constructor
  · intro pos hok
    by_cases hf : (consumeLevels (oppositeLevels book side) q).2.2 = 0
    · rw [execute_eq_of_zero_fill book side q hqle hf] at hok
      exact Except.noConfusion hok
    · rw [execute_snd_eq_of_fill book side q hqle hf] at hok
      have hpos := (Except.ok.injEq _ _).mp hok.symm
      subst hpos
      have hg := consumeLevels_eq_greedy (oppositeLevels book side) q
      refine ⟨rfl, hg.1, ?_, ?_⟩
      · exact consumeLevels_filled_le (oppositeLevels book side) q (le_of_lt hq)
      · dsimp only
        rw [hg.1, hg.2]
  · intro hnn hex
    obtain ⟨l0, hl0, hl0pos⟩ := hex
    have hsum : 0 < sumQty (oppositeLevels book side) :=
      sumQty_pos_of_mem (oppositeLevels book side) l0 hnn hl0 hl0pos
    have hmin := consumeLevels_filled_min (oppositeLevels book side) q hnn (le_of_lt hq)
    have hf : (consumeLevels (oppositeLevels book side) q).2.2 ≠ 0 := by
      rw [hmin]
      exact ne_of_gt (lt_min hq hsum)
    exact ⟨_, execute_snd_eq_of_fill book side q hqle hf⟩

/-- Witness for C2: a concrete partial fill of 5 out of 10 requested, at
entry price 101, reported as a success. -/
theorem c2_witness :
    (⟨Side.Buy, 5, 101⟩ : Position).side = Side.Buy ∧
    (⟨Side.Buy, 5, 101⟩ : Position).quantity =
      (greedySpecFill (oppositeLevels ⟨[⟨100, 10⟩], [⟨101, 5⟩]⟩ Side.Buy) 10).1 ∧
    (⟨Side.Buy, 5, 101⟩ : Position).quantity ≤ 10 ∧
    (⟨Side.Buy, 5, 101⟩ : Position).entry_price =
      (greedySpecFill (oppositeLevels ⟨[⟨100, 10⟩], [⟨101, 5⟩]⟩ Side.Buy) 10).2 /
        (⟨Side.Buy, 5, 101⟩ : Position).quantity :=
  (c2_fill_and_vwap ⟨[⟨100, 10⟩], [⟨101, 5⟩]⟩ Side.Buy 10
    (by norm_num [validate_book_logic, checkBids, checkAsks]) (by norm_num)).1
    ⟨Side.Buy, 5, 101⟩
    (by norm_num [execute_market_order, oppositeLevels, consumeLevels])

/-- C10: with nonnegative level quantities, the filled quantity is the
minimum of the requested quantity and the total opposite-side quantity,
and the opposite side's total quantity decreases by exactly that amount. -/
theorem c10_filled_is_min (book : OrderBook) (side : Side) (q : ℚ)
    (hq : 0 < q) (hnn : ∀ l ∈ oppositeLevels book side, 0 ≤ l.quantity) :
    sumQty (oppositeLevels (execute_market_order book side q).1 side) =
      sumQty (oppositeLevels book side) -
        min q (sumQty (oppositeLevels book side)) ∧
    (∀ pos, (execute_market_order book side q).2 = Except.ok pos →
      pos.quantity = min q (sumQty (oppositeLevels book side))) ∧
    (∀ e, (execute_market_order book side q).2 = Except.error e →
      min q (sumQty (oppositeLevels book side)) = 0) := by
  have hqle : ¬ q ≤ 0 := not_le.mpr hq
  have hmin := consumeLevels_filled_min (oppositeLevels book side) q hnn (le_of_lt hq)
  refine ⟨?_, ?_, ?_⟩
  · rw [execute_oppositeLevels book side q hqle,
      consumeLevels_sumQty (oppositeLevels book side) q, hmin]
  · intro pos hok
    by_cases hf : (consumeLevels (oppositeLevels book side) q).2.2 = 0
    · rw [execute_eq_of_zero_fill book side q hqle hf] at hok
      exact Except.noConfusion hok
    · rw [execute_snd_eq_of_fill book side q hqle hf] at hok
      have hpos := (Except.ok.injEq _ _).mp hok.symm
      subst hpos
      exact hmin
  · intro e herr
    by_cases hf : (consumeLevels (oppositeLevels book side) q).2.2 = 0
    · rw [← hmin]
      exact hf
    · rw [execute_snd_eq_of_fill book side q hqle hf] at herr
      exact Except.noConfusion herr

/-- Witness for C10: buying 15 against asks holding 20 in total fills
min 15 20 = 15 and leaves 5 behind. -/
theorem c10_witness :
    sumQty (oppositeLevels
        (execute_market_order ⟨[⟨99, 10⟩], [⟨101, 10⟩, ⟨102, 10⟩]⟩ Side.Buy 15).1
        Side.Buy) =
      sumQty (oppositeLevels ⟨[⟨99, 10⟩], [⟨101, 10⟩, ⟨102, 10⟩]⟩ Side.Buy) -
        min 15 (sumQty (oppositeLevels ⟨[⟨99, 10⟩], [⟨101, 10⟩, ⟨102, 10⟩]⟩ Side.Buy)) :=
  (c10_filled_is_min ⟨[⟨99, 10⟩], [⟨101, 10⟩, ⟨102, 10⟩]⟩ Side.Buy 15 (by norm_num)
    (by intro l hl; simp [oppositeLevels] at hl; rcases hl with h | h <;> rw [h] <;> norm_num)).1

/-! ### Ordering characterisations of the structural validator -/

theorem checkBids_cons_cons (a b : Level) (t : List Level) (h : b.price < a.price) :
    checkBids (a :: b :: t) = checkBids (b :: t) := by
  have h1 : ¬ a.price = b.price := ne_of_gt h
  have h2 : ¬ a.price < b.price := lt_asymm h
  simp [checkBids, h1, h2]

theorem checkAsks_cons_cons (a b : Level) (t : List Level) (h : a.price < b.price) :
    checkAsks (a :: b :: t) = checkAsks (b :: t) := by
  have h1 : ¬ a.price = b.price := ne_of_lt h
  have h2 : ¬ b.price < a.price := lt_asymm h
  simp [checkAsks, h1, h2]

/-- The bids pass succeeds exactly on strictly descending price lists. -/
theorem checkBids_ok_iff : ∀ ls : List Level,
    checkBids ls = Except.ok () ↔ List.Chain' (fun a b => b.price < a.price) ls
  | [] => by simp [checkBids]
  | [a] => by simp [checkBids]
  | a :: b :: t => by
    rw [List.chain'_cons, ← checkBids_ok_iff (b :: t)]
    by_cases h1 : a.price = b.price
    · have : ¬ b.price < a.price := by rw [h1]; exact lt_irrefl _
      simp [checkBids, h1, this]
    · by_cases h2 : a.price < b.price
      · simp [checkBids, h1, h2, lt_asymm h2]
      · have h3 : b.price < a.price :=
          lt_of_le_of_ne (le_of_not_lt h2) (fun he => h1 he.symm)
        simp [checkBids, h1, h2, h3]

/-- The asks pass succeeds exactly on strictly ascending price lists. -/
theorem checkAsks_ok_iff : ∀ ls : List Level,
    checkAsks ls = Except.ok () ↔ List.Chain' (fun a b => a.price < b.price) ls
  | [] => by simp [checkAsks]
  | [a] => by simp [checkAsks]
  | a :: b :: t => by
    rw [List.chain'_cons, ← checkAsks_ok_iff (b :: t)]
    by_cases h1 : a.price = b.price
    · have : ¬ a.price < b.price := by rw [h1]; exact lt_irrefl _
      simp [checkAsks, h1, this]
    · by_cases h2 : b.price < a.price
      · simp [checkAsks, h1, h2, lt_asymm h2]
      · have h3 : a.price < b.price :=
          lt_of_le_of_ne (le_of_not_lt h2) h1
        simp [checkAsks, h1, h2, h3]

/-- The whole structural validator succeeds exactly when both passes
succeed and the top of the book does not cross. -/
theorem validate_book_logic_ok_iff (book : OrderBook) :
    validate_book_logic book = Except.ok () ↔
      checkBids book.bids = Except.ok () ∧ checkAsks book.asks = Except.ok () ∧
      ∀ bid ∈ book.bids.head?, ∀ ask ∈ book.asks.head?, bid.price < ask.price := by
  unfold validate_book_logic
  cases hb : checkBids book.bids with
  | error e => simp [hb]
  | ok u =>
    cases u
    cases ha : checkAsks book.asks with
    | error e => simp [ha]
    | ok v =>
      cases v
      cases hbid : book.bids.head? with
      | none => simp [hbid]
      | some bid =>
        cases hask : book.asks.head? with
        | none => simp [hask]
        | some ask =>
          by_cases hcross : ask.price ≤ bid.price
          · simp [hcross, not_lt.mpr hcross]
          · simp [hcross, lt_of_not_le hcross]

/-- The head of a suffix of a transitively chained list is related to (or
equal to) the head of the whole list. -/
theorem chain'_head_of_sfx {α : Type} {R : α → α → Prop} [IsTrans α R]
    {xs ys : List α} (hc : List.Chain' R xs) (hs : ys <:+ xs)
    {x y : α} (hx : xs.head? = some x) (hy : ys.head? = some y) :
    x = y ∨ R x y := by
  have hymem : y ∈ ys := by
    cases ys with
    | nil => cases hy
    | cons a t =>
      have : a = y := by simpa using hy
      rw [this]
      exact List.mem_cons_self y t
  have hyxs : y ∈ xs := hs.mem hymem
  cases xs with
  | nil => cases hx
  | cons a t =>
    have hax : a = x := by simpa using hx
    subst hax
    have hp : List.Pairwise R (a :: t) := List.chain'_iff_pairwise.mp hc
    rcases List.mem_cons.mp hyxs with rfl | hyt
    · exact Or.inl rfl
    · exact Or.inr ((List.pairwise_cons.mp hp).1 y hyt)


theorem head_price_of_head {ls : List Level} {a : Level} (h : ls.head? = some a) :
    (ls.map Level.price).head? = some a.price := by
  cases ls with
  | nil => cases h
  | cons x t =>
    have : x = a := by simpa using h
    rw [this]
    rfl

/-- The best remaining ask after consumption sits at or above the old best
ask (ascending side). -/
theorem consume_head_ge {ls : List Level} {q : ℚ}
    (hchain : List.Chain' (fun p r : ℚ => p < r) (ls.map Level.price)) :
    ∀ a' ∈ ((consumeLevels ls q).1).head?, ∀ a ∈ ls.head?, a.price ≤ a'.price := by
  intro a' ha' a ha
  have hsfx := consumeLevels_price_sfx ls q
  have h1 := chain'_head_of_sfx hchain hsfx (head_price_of_head ha) (head_price_of_head ha')
  rcases h1 with he | hlt
  · exact le_of_eq he
  · exact le_of_lt hlt

/-- The best remaining bid after consumption sits at or below the old best
bid (descending side). -/
theorem consume_head_le {ls : List Level} {q : ℚ}
    (hchain : List.Chain' (fun p r : ℚ => r < p) (ls.map Level.price)) :
    ∀ b' ∈ ((consumeLevels ls q).1).head?, ∀ b ∈ ls.head?, b'.price ≤ b.price := by
  intro b' hb' b hb
  have hsfx := consumeLevels_price_sfx ls q
  haveI : IsTrans ℚ (fun p r : ℚ => r < p) := ⟨fun a b c h1 h2 => lt_trans h2 h1⟩
  have h1 := chain'_head_of_sfx hchain hsfx (head_price_of_head hb) (head_price_of_head hb')
  rcases h1 with he | hlt
  · exact le_of_eq he.symm
  · exact le_of_lt hlt

theorem execute_fst_buy (book : OrderBook) (q : ℚ) (hq : ¬ q ≤ 0) :
    (execute_market_order book Side.Buy q).1 =
      { book with asks := (consumeLevels book.asks q).1 } := by
  rw [execute_fst_eq book Side.Buy q hq]
  rfl

theorem execute_fst_sell (book : OrderBook) (q : ℚ) (hq : ¬ q ≤ 0) :
    (execute_market_order book Side.Sell q).1 =
      { book with bids := (consumeLevels book.bids q).1 } := by
  rw [execute_fst_eq book Side.Sell q hq]
  rfl

/-! ### Claim C4: execution preserves the validated-book invariant -/

/-- C4: a book passing the structural validator still passes it after any
call to execute_market_order, whether the call succeeded or failed. -/
theorem c4_invariant_preserved (book : OrderBook) (side : Side) (q : ℚ)
    (hval : validate_book_logic book = Except.ok ()) :
    validate_book_logic (execute_market_order book side q).1 = Except.ok () := by
  by_cases hq : q ≤ 0
  · rw [execute_eq_of_nonpos book side q hq]
    exact hval
  · rw [validate_book_logic_ok_iff] at hval
    obtain ⟨hb, ha, hx⟩ := hval
    rw [checkBids_ok_iff] at hb
    rw [checkAsks_ok_iff] at ha
    have hbmap : List.Chain' (fun p r : ℚ => r < p) (book.bids.map Level.price) :=
      (List.chain'_map Level.price).mpr hb
    have hamap : List.Chain' (fun p r : ℚ => p < r) (book.asks.map Level.price) :=
      (List.chain'_map Level.price).mpr ha
    cases side with
    | Buy =>
      rw [execute_fst_buy book q hq, validate_book_logic_ok_iff]
      dsimp only
      refine ⟨(checkBids_ok_iff _).mpr hb, ?_, ?_⟩
      · rw [checkAsks_ok_iff]
        refine (List.chain'_map Level.price).mp ?_
        exact hamap.suffix (consumeLevels_price_sfx book.asks q)
      · intro bid hbid ask hask
        have hane : book.asks.head?.isSome := by
          cases hasks : book.asks with
          | nil =>
            exfalso
            have hnil : (consumeLevels book.asks q).1 = [] := by
              rw [hasks]
              rfl
            rw [hnil] at hask
            cases hask
          | cons a0 t0 => rfl
        obtain ⟨a0, ha0⟩ := Option.isSome_iff_exists.mp hane
        have h1 : a0.price ≤ ask.price := consume_head_ge hamap ask hask a0 ha0
        have h2 : bid.price < a0.price := hx bid hbid a0 ha0
        exact lt_of_lt_of_le h2 h1
    | Sell =>
      rw [execute_fst_sell book q hq, validate_book_logic_ok_iff]
      dsimp only
      refine ⟨?_, (checkAsks_ok_iff _).mpr ha, ?_⟩
      · rw [checkBids_ok_iff]
        refine (@List.chain'_map ℚ Level (fun p r : ℚ => r < p) Level.price _).mp ?_
        exact hbmap.suffix (consumeLevels_price_sfx book.bids q)
      · intro bid hbid ask hask
        have hbne : book.bids.head?.isSome := by
          cases hbids : book.bids with
          | nil =>
            exfalso
            have hnil : (consumeLevels book.bids q).1 = [] := by
              rw [hbids]
              rfl
            rw [hnil] at hbid
            cases hbid
          | cons b0 t0 => rfl
        obtain ⟨b0, hb0⟩ := Option.isSome_iff_exists.mp hbne
        have h1 : bid.price ≤ b0.price := consume_head_le hbmap bid hbid b0 hb0
        have h2 : b0.price < ask.price := hx b0 hb0 ask hask
        exact lt_of_le_of_lt h1 h2

/-- Witness for C4: the invariant survives a concrete partial fill. -/
theorem c4_witness :
    validate_book_logic
        (execute_market_order ⟨[⟨99, 10⟩], [⟨101, 10⟩, ⟨102, 10⟩]⟩ Side.Buy 15).1 =
      Except.ok () :=
  c4_invariant_preserved ⟨[⟨99, 10⟩], [⟨101, 10⟩, ⟨102, 10⟩]⟩ Side.Buy 15
    (by norm_num [validate_book_logic, checkBids, checkAsks])

/-! ### Claims C5 and C6: the structural validator's error policy -/

/-- The bids pass skips over an initial strictly descending segment. -/
theorem checkBids_skip_chain : ∀ (pre : List Level) (a : Level) (rest : List Level),
    List.Chain' (fun x y => y.price < x.price) (pre ++ [a]) →
    checkBids (pre ++ a :: rest) = checkBids (a :: rest)
  | [], _, _, _ => rfl
  | [p], a, rest, h => by
    simp only [List.cons_append, List.nil_append] at h ⊢
    exact checkBids_cons_cons p a rest (List.chain'_cons.mp h).1
  | p :: p2 :: pre, a, rest, h => by
    simp only [List.cons_append] at h ⊢
    rw [checkBids_cons_cons p p2 _ (List.chain'_cons.mp h).1]
    exact checkBids_skip_chain (p2 :: pre) a rest (List.chain'_cons.mp h).2

/-- The asks pass skips over an initial strictly ascending segment. -/
theorem checkAsks_skip_chain : ∀ (pre : List Level) (a : Level) (rest : List Level),
    List.Chain' (fun x y => x.price < y.price) (pre ++ [a]) →
    checkAsks (pre ++ a :: rest) = checkAsks (a :: rest)
  | [], _, _, _ => rfl
  | [p], a, rest, h => by
    simp only [List.cons_append, List.nil_append] at h ⊢
    exact checkAsks_cons_cons p a rest (List.chain'_cons.mp h).1
  | p :: p2 :: pre, a, rest, h => by
    simp only [List.cons_append] at h ⊢
    rw [checkAsks_cons_cons p p2 _ (List.chain'_cons.mp h).1]
    exact checkAsks_skip_chain (p2 :: pre) a rest (List.chain'_cons.mp h).2

/-- A failing bids pass decides the whole validator. -/
theorem validate_of_checkBids_error (book : OrderBook) (e : OrderBookError)
    (h : checkBids book.bids = Except.error e) :
    validate_book_logic book = Except.error e := by
  unfold validate_book_logic
  rw [h]

/-- A failing asks pass decides the whole validator once bids pass. -/
theorem validate_of_checkAsks_error (book : OrderBook) (e : OrderBookError)
    (hb : checkBids book.bids = Except.ok ())
    (h : checkAsks book.asks = Except.error e) :
    validate_book_logic book = Except.error e := by
  unfold validate_book_logic
  rw [hb, h]

/-- C5: scanning adjacent pairs in input order, the validator reports
DuplicatePrice at the first adjacent pair with equal prices and
BidsUnsorted / AsksUnsorted at the first adjacent pair violating the
side's strict order, the duplicate check being evaluated first at a pair
that is both equal and order-violating. -/
theorem c5_adjacent_pair_errors (book : OrderBook) :
    (∀ pre a b post, book.bids = pre ++ a :: b :: post →
      List.Chain' (fun x y => y.price < x.price) (pre ++ [a]) →
      (a.price = b.price →
        validate_book_logic book = Except.error (OrderBookError.DuplicatePrice a.price)) ∧
      (a.price ≠ b.price → ¬ b.price < a.price →
        validate_book_logic book = Except.error (OrderBookError.BidsUnsorted b.price))) ∧
    (∀ pre a b post, book.asks = pre ++ a :: b :: post →
      checkBids book.bids = Except.ok () →
      List.Chain' (fun x y => x.price < y.price) (pre ++ [a]) →
      (a.price = b.price →
        validate_book_logic book = Except.error (OrderBookError.DuplicatePrice a.price)) ∧
      (a.price ≠ b.price → ¬ a.price < b.price →
        validate_book_logic book = Except.error (OrderBookError.AsksUnsorted b.price))) := by
  constructor
  · intro pre a b post hbids hchain
    have hskip : checkBids book.bids = checkBids (a :: b :: post) := by
      rw [hbids]
      exact checkBids_skip_chain pre a (b :: post) hchain
    constructor
    · intro heq
      refine validate_of_checkBids_error book _ ?_
      rw [hskip]
      simp [checkBids, heq]
    · intro hne hnlt
      have hlt : a.price < b.price :=
        lt_of_le_of_ne (le_of_not_lt hnlt) hne
      refine validate_of_checkBids_error book _ ?_
      rw [hskip]
      simp [checkBids, hne, hlt]
  · intro pre a b post hasks hb hchain
    have hskip : checkAsks book.asks = checkAsks (a :: b :: post) := by
      rw [hasks]
      exact checkAsks_skip_chain pre a (b :: post) hchain
    constructor
    · intro heq
      refine validate_of_checkAsks_error book _ hb ?_
      rw [hskip]
      simp [checkAsks, heq]
    · intro hne hnlt
      have hlt : b.price < a.price :=
        lt_of_le_of_ne (le_of_not_lt hnlt) (fun he => hne he.symm)
      refine validate_of_checkAsks_error book _ hb ?_
      rw [hskip]
      simp [checkAsks, hne, hlt]

/-- Witness for C5: a duplicated bid price at an order-violating pair is
reported as DuplicatePrice, the duplicate check winning. -/
theorem c5_witness :
    validate_book_logic ⟨[⟨100, 1⟩, ⟨100, 5⟩], [⟨110, 1⟩]⟩ =
      Except.error (OrderBookError.DuplicatePrice 100) :=
  ((c5_adjacent_pair_errors ⟨[⟨100, 1⟩, ⟨100, 5⟩], [⟨110, 1⟩]⟩).1
    [] ⟨100, 1⟩ ⟨100, 5⟩ [] rfl (by simp)).1 rfl

/-- C6: once both sides individually pass, the validator fails with
CrossedBook exactly when both sides are non-empty and the best bid's price
is at least the best ask's price, with those two prices as payload;
crossing between deeper levels is never flagged. -/
theorem c6_top_of_book_crossing (book : OrderBook)
    (hb : checkBids book.bids = Except.ok ())
    (ha : checkAsks book.asks = Except.ok ()) :
    (validate_book_logic book = Except.ok () ↔
      ¬ ∃ bid ask, book.bids.head? = some bid ∧ book.asks.head? = some ask ∧
        ask.price ≤ bid.price) ∧
    (∀ bid ask, book.bids.head? = some bid → book.asks.head? = some ask →
      ask.price ≤ bid.price →
      validate_book_logic book = Except.error (OrderBookError.CrossedBook bid.price ask.price)) := by
  constructor
  · rw [validate_book_logic_ok_iff]
    constructor
    · rintro ⟨_, _, hx⟩ ⟨bid, ask, hbid, hask, hcross⟩
      exact absurd (hx bid hbid ask hask) (not_lt.mpr hcross)
    · intro hno
      refine ⟨hb, ha, ?_⟩
      intro bid hbid ask hask
      by_contra hnlt
      exact hno ⟨bid, ask, hbid, hask, le_of_not_lt hnlt⟩
  · intro bid ask hbid hask hcross
    unfold validate_book_logic
    rw [hb, ha, hbid, hask]
    simp [hcross]

/-- Witness for C6: a concrete book with equal best bid and best ask fails
with CrossedBook carrying both prices. -/
theorem c6_witness :
    validate_book_logic ⟨[⟨105, 10⟩], [⟨105, 20⟩]⟩ =
      Except.error (OrderBookError.CrossedBook 105 105) :=
  (c6_top_of_book_crossing ⟨[⟨105, 10⟩], [⟨105, 20⟩]⟩ rfl rfl).2
    ⟨105, 10⟩ ⟨105, 20⟩ rfl rfl le_rfl

/-! ### Claim C7: the instrument validator's error policy -/

/-- The instrument iteration skips over levels that pass all checks. -/
theorem checkLevels_skip (config : InstrumentConfig) :
    ∀ (pre rest : List Level),
    (∀ p ∈ pre, checkLevel config p = some (Except.ok ())) →
    checkLevels config (pre ++ rest) = checkLevels config rest
  | [], _, _ => rfl
  | p :: pre, rest, h => by
    have hp : checkLevel config p = some (Except.ok ()) :=
      h p (List.mem_cons_self p pre)
    simp only [List.cons_append, checkLevels, hp]
    exact checkLevels_skip config pre rest
      (fun x hx => h x (List.mem_cons_of_mem p hx))

/-- C7: with a supplied config, validation walks the bids then the asks in
list order and returns the verdict of the first level whose per-level
check does not succeed; the per-level check tests the tick-size rule, then
the min-lot rule, then the lot-step rule, returning the first violation
without aggregating; with no config supplied, parse_order_book is decided
by the structural pipeline alone and no instrument rule is checked. -/
theorem c7_first_violation_wins (book : OrderBook) (config : InstrumentConfig) :
    (∀ pre l post, book.bids ++ book.asks = pre ++ l :: post →
      (∀ p ∈ pre, checkLevel config p = some (Except.ok ())) →
      checkLevel config l ≠ some (Except.ok ()) →
      validate_instrument_rules book config = checkLevel config l) ∧
    (∀ level : Level,
      (∀ r, decRem level.price config.tick_size = some r → r ≠ 0 →
        checkLevel config level =
          some (Except.error (OrderBookError.InvalidTickSize level.price config.tick_size))) ∧
      (decRem level.price config.tick_size = some 0 →
        level.quantity < config.min_lot →
        checkLevel config level =
          some (Except.error (OrderBookError.InvalidMinLot level.quantity config.min_lot))) ∧
      (∀ r2, decRem level.price config.tick_size = some 0 →
        ¬ level.quantity < config.min_lot →
        decRem level.quantity config.lot_step = some r2 → r2 ≠ 0 →
        checkLevel config level =
          some (Except.error (OrderBookError.InvalidLotStep level.quantity config.lot_step)))) ∧
    (∀ input : String, parse_order_book input none = some (parse_and_validate input)) := by
  refine ⟨?_, ?_, ?_⟩
  · intro pre l post hsplit hpre hbad
    unfold validate_instrument_rules
    rw [hsplit, checkLevels_skip config pre (l :: post) hpre]
    cases hl : checkLevel config l with
    | none => simp [checkLevels, hl]
    | some v =>
      cases v with
      | error e => simp [checkLevels, hl]
      | ok u => exact absurd (by rw [hl]) hbad
  · intro level
    refine ⟨?_, ?_, ?_⟩
    · intro r hr hrne
      simp [checkLevel, hr, hrne]
    · intro hr hlot
      simp [checkLevel, hr, hlot]
    · intro r2 hr hlot hr2 hr2ne
      simp [checkLevel, hr, hlot, hr2, hr2ne]
  · intro input
    unfold parse_order_book
    cases h : parse_and_validate input with
    | error e => rfl
    | ok b => rfl

/-- Witness for C7: with tick 1/2, min lot 10, lot step 5, the first level
(bid of quantity 2) decides the outcome. -/
theorem c7_witness :
    validate_instrument_rules ⟨[⟨100, 2⟩], [⟨102, 20⟩]⟩ ⟨1 / 2, 10, 5⟩ =
      checkLevel ⟨1 / 2, 10, 5⟩ ⟨100, 2⟩ :=
  (c7_first_violation_wins ⟨[⟨100, 2⟩], [⟨102, 20⟩]⟩ ⟨1 / 2, 10, 5⟩).1
    [] ⟨100, 2⟩ [⟨102, 20⟩] rfl (by simp)
    (by
      norm_num [checkLevel, decRem, ratTrunc]
      exact fun h => Except.noConfusion h)

/-! ### Claim C3: crash behaviour of parse_order_book -/

/-- C3 counterexample: with a zero tick size the instrument stage hits the
zero-divisor `%` of rust_decimal and panics (modelled as `none`) instead
of returning a typed error. -/
theorem c3_counterexample :
    parse_order_book inputOneBid (some ⟨0, 0, 0⟩) = none := rfl

/-- A per-level check with nonzero divisors cannot panic. -/
theorem checkLevel_ne_none (config : InstrumentConfig) (level : Level)
    (ht : config.tick_size ≠ 0) (hs : config.lot_step ≠ 0) :
    checkLevel config level ≠ none := by
  unfold checkLevel decRem
  rw [if_neg ht, if_neg hs]
  by_cases h1 : level.price - config.tick_size * (ratTrunc (level.price / config.tick_size) : ℚ) ≠ 0
  · simp [h1]
  · by_cases h2 : level.quantity < config.min_lot
    · simp [h1, h2]
    · by_cases h3 :
        level.quantity - config.lot_step * (ratTrunc (level.quantity / config.lot_step) : ℚ) ≠ 0
      · simp [h1, h2, h3]
      · simp [h1, h2, h3]

/-- The instrument iteration with nonzero divisors cannot panic. -/
theorem checkLevels_ne_none (config : InstrumentConfig)
    (ht : config.tick_size ≠ 0) (hs : config.lot_step ≠ 0) :
    ∀ ls : List Level, checkLevels config ls ≠ none
  | [] => by simp [checkLevels]
  | l :: ls => by
    unfold checkLevels
    cases hl : checkLevel config l with
    | none => exact absurd hl (checkLevel_ne_none config l ht hs)
    | some v =>
      cases v with
      | error e => simp
      | ok u => exact checkLevels_ne_none config ht hs ls

/-- C3 as amended: for every input string, parse_order_book never crashes
when the supplied config (if any) has nonzero tick_size and lot_step; the
failure cases are all values of the typed error taxonomy. -/
theorem c3_no_crash_for_nonzero_config (input : String)
    (config : Option InstrumentConfig)
    (hcfg : ∀ cfg ∈ config, cfg.tick_size ≠ 0 ∧ cfg.lot_step ≠ 0) :
    parse_order_book input config ≠ none := by
  unfold parse_order_book
  cases parse_and_validate input with
  | error e => simp
  | ok book =>
    cases config with
    | none => simp
    | some cfg =>
      have h := hcfg cfg rfl
      have hfine := checkLevels_ne_none cfg h.1 h.2 (book.bids ++ book.asks)
      unfold validate_instrument_rules
      cases hv : checkLevels cfg (book.bids ++ book.asks) with
      | none => exact absurd hv hfine
      | some v =>
        cases v with
        | error e => dsimp only; rw [hv]; simp
        | ok u => dsimp only; rw [hv]; simp

/-- Witness for the amended C3 at a concrete input and config. -/
theorem c3_witness : parse_order_book inputOneBid (some ⟨1, 1, 1⟩) ≠ none :=
  c3_no_crash_for_nonzero_config inputOneBid (some ⟨1, 1, 1⟩)
    (by
      rintro cfg hc
      simp only [Option.mem_def, Option.some.injEq] at hc
      subst hc
      exact ⟨one_ne_zero, one_ne_zero⟩)
